import Mathlib

/-!
A shallow embedding of `mkapi/core/node.py` (documentation-tree builder).

Python entities are modelled by the inductive type `Entity`: a `Shape` of
introspection-probe results (the external `inspect`/docstring/signature
collaborators, treated as black boxes that report facts about an entity)
together with the entity's named attributes.  Fallible probes
(`inspect.signature`, `inspect.getsourcefile`, `inspect.getsourcelines`)
are modelled with `Option`: `none` means the probe raises the exception
the source code catches.

The recursive pair `walk`/`get_members` is embedded fuel-indexed
(`walkF`), structurally recursive on the fuel, so that all definitions
are executable by kernel reduction.  `Entity.fuel` strictly exceeds the
recursion depth on every entity, and `walkF` is proved fuel-independent
above that bound (`walkF_fuel_adequate`), so `walk := walkF Entity.fuel`
is the exact value of the always-terminating Python recursion and the
fuel index is a proof artifact only.
-/

namespace Mkapi

/-- Result of the external docstring parser (`parse_docstring`): the code
only uses truthiness, `sections[0].markdown` and `.type`, so a parsed
docstring is its first section's markdown plus the declared type
(`""` when no type is declared). -/
structure Docstring where
  firstMarkdown : String
  type : String
deriving DecidableEq

/-- Introspection-probe results for one Python object, as consumed by
`node.py`.  `trueKinds` is the set of `inspect.is*` probes that return
`True` on the object; `fgetSrcfile`/`fgetLineno` are the source probes of
`obj.fget` (used when the object is a property). -/
structure Shape where
  dataclassFields : Bool
  isProp : Bool
  fset : Bool
  fgetSrcfile : Option (Option String)
  fgetLineno : Option Int
  trueKinds : List String
  signatureParams : Option (List String)
  srcfile : Option (Option String)
  srcLineno : Option Int
  qualname : Option String
  dunderName : String
  dunderModule : String
  docstring : Option Docstring
  signature : String
deriving DecidableEq

/-- A Python object: its probe results plus its named attributes
(`inspect.getmembers` enumeration, also used for `getattr`). -/
inductive Entity : Type where
  | mk : Shape → List (String × Entity) → Entity

def Entity.shape : Entity → Shape
  | .mk s _ => s

def Entity.attrs : Entity → List (String × Entity)
  | .mk _ a => a

def Entity.dataclassFields (e : Entity) : Bool := e.shape.dataclassFields

def Entity.isProp (e : Entity) : Bool := e.shape.isProp

def Entity.fset (e : Entity) : Bool := e.shape.fset

def Entity.fgetSrcfile (e : Entity) : Option (Option String) := e.shape.fgetSrcfile

def Entity.fgetLineno (e : Entity) : Option Int := e.shape.fgetLineno

def Entity.trueKinds (e : Entity) : List String := e.shape.trueKinds

def Entity.signatureParams (e : Entity) : Option (List String) := e.shape.signatureParams

def Entity.srcfile (e : Entity) : Option (Option String) := e.shape.srcfile

def Entity.srcLineno (e : Entity) : Option Int := e.shape.srcLineno

def Entity.qualname (e : Entity) : Option String := e.shape.qualname

def Entity.dunderName (e : Entity) : String := e.shape.dunderName

def Entity.dunderModule (e : Entity) : String := e.shape.dunderModule

def Entity.docstring (e : Entity) : Option Docstring := e.shape.docstring

def Entity.signature (e : Entity) : String := e.shape.signature

/-- `getattr(e, nm)`, `none` when the attribute is missing. -/
def lookupAttr (e : Entity) (nm : String) : Option Entity :=
  (e.attrs.find? (fun p => p.1 == nm)).map (fun p => p.2)

/-- `s.startswith(p)` (kernel-reducible). -/
def strStartsWith (s p : String) : Bool := p.data.isPrefixOf s.data

/-- `s.endswith(p)` (kernel-reducible). -/
def strEndsWith (s p : String) : Bool := p.data.reverse.isPrefixOf s.data.reverse

/-- `s.split(".")` (kernel-reducible). -/
def splitDotsAux : List Char → List Char → List String
  | [], acc => [String.mk acc.reverse]
  | c :: cs, acc =>
    if c = '.' then String.mk acc.reverse :: splitDotsAux cs []
    else splitDotsAux cs (c :: acc)

def splitDots (s : String) : List String := splitDotsAux s.data []

/-- `".".join(l)`. -/
def joinDots : List String → String
  | [] => ""
  | [x] => x
  | x :: rest => x ++ "." ++ joinDots rest

/-- The module-level `ISFUNCTIONS` table of `node.py`: the `inspect.is*`
probe names in `dir(inspect)` (alphabetical) order, minus
`routine`, `builtin`, `code`. -/
def ISFUNCTIONS : List String :=
  ["abstract", "asyncgen", "asyncgenfunction", "awaitable", "class",
   "coroutine", "coroutinefunction", "datadescriptor", "frame", "function",
   "generator", "generatorfunction", "getsetdescriptor", "memberdescriptor",
   "method", "methoddescriptor", "module", "traceback"]

/-- `get_kinds(obj)`: the names of the `ISFUNCTIONS` probes that hold. -/
def get_kinds (e : Entity) : List String :=
  ISFUNCTIONS.filter (fun k => e.trueKinds.contains k)

/-- `get_kind(obj)` (node.py lines 26-56). -/
def get_kind (e : Entity) : String :=
  if e.dataclassFields then "dataclass"
  else if e.isProp then
    (if e.fset then "readwrite_property" else "readonly_property")
  else
    let kinds := get_kinds e
    if kinds = [] then ""
    else if kinds.contains "generatorfunction" then "generator"
    else
      let viaFunction : Option String :=
        if kinds.contains "function" then
          match e.signatureParams with
          | none => some ""
          | some ps => if ps.head? = some "self" then some "method" else none
        else none
      match viaFunction with
      | some r => r
      | none =>
        let kind := kinds.getLastD ""
        if kind = "module" then
          match e.srcfile with
          | none => ""
          | some osf =>
            let sf := osf.getD ""
            if sf ≠ "" ∧ strEndsWith sf "__init__.py" then "package" else "module"
        else kind

/-- `get_sourcefile_and_lineno(obj)` (node.py lines 59-67): a property is
dereferenced to its getter; a raising probe yields `("", -1)`. -/
def get_sourcefile_and_lineno (e : Entity) : String × Int :=
  let sfo := if e.isProp then e.fgetSrcfile else e.srcfile
  let lno := if e.isProp then e.fgetLineno else e.srcLineno
  match sfo, lno with
  | some osf, some l => (osf.getD "", l)
  | _, _ => ("", -1)

/-- `filter(obj, qualname, sourcefile)` (node.py lines 70-85), the
membership predicate handed to `inspect.getmembers`. -/
def filter (e : Entity) (qualname sourcefile : String) : Bool :=
  if e.isProp then true
  else
    let kind := get_kind e
    if kind = "" then false
    else
      let sf := (get_sourcefile_and_lineno e).1
      if sf = "" ∨ (sourcefile ≠ "" ∧ sourcefile ≠ sf) then false
      else
        match e.qualname with
        | none => false
        | some qn => if qualname = "" then true else strStartsWith qn qualname

/-- A documentation-tree node (`mkapi.core.base.Node`, external), with
exactly the fields `node.py` reads or writes: the underlying object,
dotted path pieces, depth, kind, source location, signature, docstring,
children, and the docstring-declared type. -/
inductive Node : Type where
  | mk : Entity → String → String → Int → String → String → Int → String →
         Option Docstring → List Node → String → Node

def Node.obj : Node → Entity
  | .mk o _ _ _ _ _ _ _ _ _ _ => o

def Node.pfx : Node → String
  | .mk _ p _ _ _ _ _ _ _ _ _ => p

def Node.name : Node → String
  | .mk _ _ n _ _ _ _ _ _ _ _ => n

def Node.depth : Node → Int
  | .mk _ _ _ d _ _ _ _ _ _ _ => d

def Node.kind : Node → String
  | .mk _ _ _ _ k _ _ _ _ _ _ => k

def Node.sourcefile : Node → String
  | .mk _ _ _ _ _ sf _ _ _ _ _ => sf

def Node.lineno : Node → Int
  | .mk _ _ _ _ _ _ ln _ _ _ _ => ln

def Node.signature : Node → String
  | .mk _ _ _ _ _ _ _ sg _ _ _ => sg

def Node.docstring : Node → Option Docstring
  | .mk _ _ _ _ _ _ _ _ ds _ _ => ds

def Node.members : Node → List Node
  | .mk _ _ _ _ _ _ _ _ _ ms _ => ms

def Node.type : Node → String
  | .mk _ _ _ _ _ _ _ _ _ _ ty => ty

/-- The mutation `member.docstring = d` (all other fields kept). -/
def Node.withDocstring : Node → Option Docstring → Node
  | .mk o p n d k sf ln sg _ ms ty, ds => .mk o p n d k sf ln sg ds ms ty

/-- Python's `<` on strings: lexicographic comparison of the code-point
sequences (kernel-reducible). -/
def listLTb : List Char → List Char → Bool
  | _, [] => false
  | [], _ :: _ => true
  | a :: as, b :: bs => if a < b then true else if b < a then false else listLTb as bs

def strLT (a b : String) : Bool := listLTb a.data b.data

/-- Strict comparison of the Python sort key
`(x.sourcefile, x.lineno)` (tuple comparison: lexicographic). -/
def keyLT (a b : Node) : Bool :=
  strLT a.sourcefile b.sourcefile ||
    (a.sourcefile == b.sourcefile && decide (a.lineno < b.lineno))

/-- Stable insertion of a later-arriving element: placed after every
element it is not strictly below, as Python's stable `sorted` does. -/
def insertNode (x : Node) : List Node → List Node
  | [] => [x]
  | y :: ys => if keyLT x y then x :: y :: ys else y :: insertNode x ys

/-- `sorted(members, key=lambda x: (x.sourcefile, x.lineno))`
(node.py line 114): stable ascending sort by `(sourcefile, lineno)`. -/
def sortMembers (l : List Node) : List Node :=
  l.foldl (fun acc m => insertNode m acc) []

/-- The docstring fix of node.py lines 105-111 ("needed for max_depth"):
a `class`/`dataclass` member that came back without a docstring adopts
its own `__init__`'s parsed docstring, unless that docstring's first
section starts with the "Initialize self" boilerplate.  (`o.__init__`
always exists on a Python class; a missing attribute leaves the member
unchanged here.) -/
def maxDepthPromote (o : Entity) (member : Node) : Node :=
  if (member.kind = "class" ∨ member.kind = "dataclass") ∧ member.docstring = none then
    match lookupAttr o "__init__" with
    | some ini =>
      match ini.docstring with
      | some ds =>
        if strStartsWith ds.firstMarkdown "Initialize self" then member
        else member.withDocstring (some ds)
      | none => member
    | none => member
  else member

/-- One iteration of the promotion loop of `walk` (node.py lines
128-132): a documented member named `__init__` whose first section is
not the "Initialize self" boilerplate replaces the accumulated
docstring. -/
def promoteStep (acc : Option Docstring) (m : Node) : Option Docstring :=
  if m.name == "__init__" then
    match m.docstring with
    | some ds =>
      if strStartsWith ds.firstMarkdown "Initialize self" then acc else some ds
    | none => acc
  else acc

/-- The promotion loop of `walk` (node.py lines 128-132). -/
def promoteInit (members : List Node) (d0 : Option Docstring) : Option Docstring :=
  members.foldl promoteStep d0

/-- `member_prefix` computation of `walk` (node.py lines 118-120). -/
def member_pfx (pfx nm : String) : String :=
  if pfx ≠ "" then pfx ++ "." ++ nm else nm

/-- The body of `get_members(obj, kind, sourcefile, prefix, depth,
max_depth)` (node.py lines 88-114), parameterized by the recursive call
that builds a child node (`walkChild child name`).  `inspect.getmembers`
(external) enumerates `e.attrs` filtered by the `filter` predicate; the
underscore-name skip, the max_depth docstring fix, the documented-member
filter and the final sort are this function's own code. -/
def membersCore (walkChild : Entity → String → Node) (e : Entity)
    (kind sourcefile : String) (depth md : Int) : List Node :=
  if md ≠ -1 ∧ depth > md then []
  else if e.isProp then []
  else
    let qualname := e.qualname.getD ""
    let pred : Entity → Bool :=
      if kind = "package" ∨ kind = "module" then fun o => filter o qualname sourcefile
      else fun o => filter o qualname ""
    let built :=
      (e.attrs.filter (fun p => pred p.2 && !(strStartsWith p.1 "_" && p.1 != "__init__"))).map
        (fun p => maxDepthPromote p.2 (walkChild p.2 p.1))
    sortMembers (built.filter (fun m => m.docstring.isSome))

/-- Fuel-indexed `walk(obj, prefix, name, depth, max_depth)` (node.py
lines 117-149).  Fuel 0 yields a bare placeholder node, never reached
when the fuel exceeds the attribute-nesting depth, as `Entity.fuel`
does (`walkF_fuel_adequate`). -/
def walkF : Nat → Entity → String → String → Int → Int → Node
  | 0, e, pfx, nm, depth, _ => .mk e pfx nm depth "" "" (-1) "" none [] ""
  | f + 1, e, pfx, nm, depth, md =>
    let mpfx := member_pfx pfx nm
    let kind := get_kind e
    let sfln := get_sourcefile_and_lineno e
    let members :=
      membersCore (fun o nm2 => walkF f o mpfx nm2 (depth + 1) md) e kind sfln.1
        (depth + 1) md
    let docstring :=
      if (kind = "class" ∨ kind = "dataclass") ∧ e.docstring = none then
        promoteInit members e.docstring
      else e.docstring
    let members2 := members.filter (fun m => m.name != "__init__")
    let ty := match docstring with
      | some d => d.type
      | none => ""
    .mk e pfx nm depth kind sfln.1 sfln.2 e.signature docstring members2 ty

/-- `get_members` as called with child fuel `f`; `walkF (f+1)` computes
exactly `get_members f …` for its members list (definitional). -/
def get_members (f : Nat) (e : Entity) (kind sourcefile pfx : String)
    (depth md : Int) : List Node :=
  membersCore (fun o nm => walkF f o pfx nm depth md) e kind sourcefile depth md

mutual

/-- One plus the total number of entities nested under `e`: strictly
exceeds the attribute-nesting depth of `e`, hence adequate fuel for
`walkF` (which consumes one unit per nesting level). -/
def Entity.fuel : Entity → Nat
  | .mk _ attrs => 1 + attrsFuel attrs

def attrsFuel : List (String × Entity) → Nat
  | [] => 0
  | p :: rest => p.2.fuel + attrsFuel rest

end

/-- `walk` at adequate fuel: the exact value of the Python recursion. -/
def walk (e : Entity) (pfx nm : String) (depth md : Int) : Node :=
  walkF e.fuel e pfx nm depth md

/-- The importable-module table seen by `importlib.import_module`
(external collaborator): dotted module name to module entity;
a name not in the table raises `ModuleNotFoundError`. -/
def moduleLookup (modules : List (String × Entity)) (nm : String) : Option Entity :=
  (modules.find? (fun p => p.1 == nm)).map (fun p => p.2)

/-- The inner `for attr in names[k:]` loop of `get_object`: chained
`getattr`; a missing attribute raises `AttributeError`, which
`get_object` does not catch. -/
def getattrChain : Entity → List String → Except String Entity
  | e, [] => .ok e
  | e, a :: rest =>
    match lookupAttr e a with
    | some c => getattrChain c rest
    | none => .error ("AttributeError: " ++ a)

/-- The `for k in range(len(names), 0, -1)` loop of `get_object`:
try to import the first `k` dotted pieces, resolve the rest with
`getattr`; when no prefix imports, `ValueError` is raised. -/
def get_objectGo (modules : List (String × Entity)) (name : String)
    (names : List String) : Nat → Except String Entity
  | 0 => .error ("Could not find object: " ++ name)
  | k + 1 =>
    let module_name := joinDots (names.take (k + 1))
    match moduleLookup modules module_name with
    | some m => getattrChain m (names.drop (k + 1))
    | none => get_objectGo modules name names k

/-- `get_object(name)` (node.py lines 152-182). -/
def get_object (modules : List (String × Entity)) (name : String) :
    Except String Entity :=
  let names := splitDots name
  get_objectGo modules name names names.length

/-- `split_prefix_and_basename(obj)` (node.py lines 185-215). -/
def split_prefix_and_basename (e : Entity) : String × String :=
  if e.trueKinds.contains "module" then ("", e.dunderName)
  else
    let module := e.dunderModule
    let qualname := e.qualname.getD ""
    let pb :=
      if !(qualname.data.contains '.') then (module, qualname)
      else
        let parts := splitDots qualname
        (module ++ "." ++ joinDots parts.dropLast, parts.getLastD "")
    if pb.1 = "__main__" then ("", pb.2) else pb

/-- `get_node(name, max_depth, headless)` (node.py lines 218-227) for a
string argument, without the `lru_cache` wrapper and the `headless`
display flag (both orthogonal to the tree construction): resolve the
name, split it, and `walk` from depth 0.  A resolution error propagates
and no node is produced. -/
def get_node (modules : List (String × Entity)) (name : String) (md : Int) :
    Except String Node :=
  match get_object modules name with
  | .error msg => .error msg
  | .ok obj =>
    let pb := split_prefix_and_basename obj
    .ok (walk obj pb.1 pb.2 0 md)

/-! ### Basic lemmas about the embedded definitions -/

theorem walkF_name (f : Nat) (e : Entity) (pfx nm : String) (depth md : Int) :
    (walkF f e pfx nm depth md).name = nm := by
  cases f <;> rfl

theorem walkF_succ_members (f : Nat) (e : Entity) (pfx nm : String) (depth md : Int) :
    (walkF (f + 1) e pfx nm depth md).members =
      (get_members f e (get_kind e) (get_sourcefile_and_lineno e).1
        (member_pfx pfx nm) (depth + 1) md).filter (fun m => m.name != "__init__") := rfl

theorem walkF_succ_docstring (f : Nat) (e : Entity) (pfx nm : String) (depth md : Int) :
    (walkF (f + 1) e pfx nm depth md).docstring =
      (if (get_kind e = "class" ∨ get_kind e = "dataclass") ∧ e.docstring = none then
        promoteInit (get_members f e (get_kind e) (get_sourcefile_and_lineno e).1
          (member_pfx pfx nm) (depth + 1) md) e.docstring
      else e.docstring) := rfl

theorem Node.withDocstring_name (n : Node) (ds : Option Docstring) :
    (n.withDocstring ds).name = n.name := by
  cases n; rfl

theorem Node.withDocstring_members (n : Node) (ds : Option Docstring) :
    (n.withDocstring ds).members = n.members := by
  cases n; rfl

theorem Node.withDocstring_kind (n : Node) (ds : Option Docstring) :
    (n.withDocstring ds).kind = n.kind := by
  cases n; rfl

theorem maxDepthPromote_name (o : Entity) (n : Node) :
    (maxDepthPromote o n).name = n.name := by
  unfold maxDepthPromote
  repeat' split
  all_goals simp [Node.withDocstring_name]

theorem maxDepthPromote_members (o : Entity) (n : Node) :
    (maxDepthPromote o n).members = n.members := by
  unfold maxDepthPromote
  repeat' split
  all_goals simp [Node.withDocstring_members]

theorem filter_all_self (l : List Node) (p : Node → Bool) :
    (l.filter p).all p = true := by
  simp [List.all_eq_true, List.mem_filter]

/-! ### Lemmas about the stable sort -/

theorem mem_insertNode (x a : Node) (l : List Node) :
    a ∈ insertNode x l ↔ a = x ∨ a ∈ l := by
  induction l with
  | nil => simp [insertNode]
  | cons y ys ih =>
    simp only [insertNode]
    split
    · simp
    · simp [ih]
      tauto

theorem mem_sortMembers_aux (l : List Node) (acc : List Node) (a : Node) :
    a ∈ l.foldl (fun acc m => insertNode m acc) acc ↔ a ∈ acc ∨ a ∈ l := by
  induction l generalizing acc with
  | nil => simp
  | cons y ys ih =>
    simp only [List.foldl_cons, ih, mem_insertNode, List.mem_cons]
    tauto

theorem mem_sortMembers (l : List Node) (a : Node) :
    a ∈ sortMembers l ↔ a ∈ l := by
  simp [sortMembers, mem_sortMembers_aux]

theorem all_sortMembers (l : List Node) (p : Node → Bool) :
    (sortMembers l).all p = l.all p := by
  rw [Bool.eq_iff_iff, List.all_eq_true, List.all_eq_true]
  constructor
  · intro h a ha
    exact h a ((mem_sortMembers l a).mpr ha)
  · intro h a ha
    exact h a ((mem_sortMembers l a).mp ha)

/-- Non-strict version of the sort key order: `a` may stay before `b`. -/
def keyLE (a b : Node) : Bool := !(keyLT b a)

theorem listLTb_irrefl (l : List Char) : listLTb l l = false := by
  induction l with
  | nil => rfl
  | cons a as ih => simp [listLTb, lt_self_iff_false, ih]

theorem listLTb_asymm : ∀ {a b : List Char}, listLTb a b = true → listLTb b a = false
  | [], [], h => by simp [listLTb] at h
  | [], _ :: _, _ => rfl
  | _ :: _, [], h => by simp [listLTb] at h
  | x :: xs, y :: ys, h => by
    simp only [listLTb] at h ⊢
    by_cases h1 : x < y
    · rw [if_neg (lt_asymm h1), if_pos h1]
    · rw [if_neg h1] at h
      by_cases h2 : y < x
      · rw [if_pos h2] at h
        exact absurd h (by simp)
      · rw [if_neg h2] at h
        rw [if_neg h2, if_neg h1]
        exact listLTb_asymm h

theorem listLTb_trans : ∀ {a b c : List Char},
    listLTb a b = true → listLTb b c = true → listLTb a c = true
  | _, [], _, h1, _ => by simp [listLTb] at h1
  | _, _ :: _, [], _, h2 => by simp [listLTb] at h2
  | [], _ :: _, _ :: _, _, _ => rfl
  | x :: xs, y :: ys, z :: zs, h1, h2 => by
    simp only [listLTb] at h1 h2 ⊢
    by_cases hxy : x < y
    · by_cases hyz : y < z
      · rw [if_pos (lt_trans hxy hyz)]
      · rw [if_neg hyz] at h2
        by_cases hzy : z < y
        · rw [if_pos hzy] at h2
          exact absurd h2 (by simp)
        · have hz : y = z := le_antisymm (not_lt.mp hzy) (not_lt.mp hyz)
          subst hz
          rw [if_pos hxy]
    · rw [if_neg hxy] at h1
      by_cases hyx : y < x
      · rw [if_pos hyx] at h1
        exact absurd h1 (by simp)
      · rw [if_neg hyx] at h1
        have hx : x = y := le_antisymm (not_lt.mp hyx) (not_lt.mp hxy)
        subst hx
        by_cases hxz : x < z
        · rw [if_pos hxz]
        · rw [if_neg hxz] at h2 ⊢
          by_cases hzx : z < x
          · rw [if_pos hzx] at h2
            exact absurd h2 (by simp)
          · rw [if_neg hzx] at h2 ⊢
            exact listLTb_trans h1 h2

theorem strLT_irrefl (s : String) : strLT s s = false := listLTb_irrefl s.data

theorem keyLT_asymm {a b : Node} (h : keyLT a b = true) : keyLT b a = false := by
  simp only [keyLT, Bool.or_eq_true, Bool.and_eq_true, beq_iff_eq,
    decide_eq_true_eq] at h
  rw [keyLT, Bool.or_eq_false_iff]
  rcases h with hs | ⟨he, hl⟩
  · refine ⟨listLTb_asymm hs, ?_⟩
    rw [Bool.and_eq_false_iff]
    left
    rw [beq_eq_false_iff_ne]
    intro he
    rw [strLT, he] at hs
    exact absurd hs (by rw [listLTb_irrefl]; simp)
  · refine ⟨?_, ?_⟩
    · rw [strLT, he]
      exact listLTb_irrefl _
    · rw [Bool.and_eq_false_iff]
      right
      rw [decide_eq_false_iff_not]
      omega

theorem keyLT_trans {a b c : Node} (h1 : keyLT a b = true) (h2 : keyLT b c = true) :
    keyLT a c = true := by
  simp only [keyLT, Bool.or_eq_true, Bool.and_eq_true, beq_iff_eq,
    decide_eq_true_eq] at h1 h2 ⊢
  rcases h1 with h1 | ⟨he1, hl1⟩ <;> rcases h2 with h2 | ⟨he2, hl2⟩
  · exact Or.inl (listLTb_trans h1 h2)
  · exact Or.inl (by rw [strLT, ← he2] at *; exact h1)
  · exact Or.inl (by rw [strLT, he1]; exact h2)
  · exact Or.inr ⟨he1.trans he2, by omega⟩

/-- `sortedBy l` means consecutive elements are in non-strict key order. -/
def sortedBy (l : List Node) : Prop :=
  List.Pairwise (fun a b => keyLE a b = true) l

theorem sortedBy_insertNode {x : Node} {l : List Node} (h : sortedBy l) :
    sortedBy (insertNode x l) := by
  induction l with
  | nil => simp [sortedBy, insertNode]
  | cons y ys ih =>
    rcases (List.pairwise_cons.mp h) with ⟨hy, hys⟩
    simp only [insertNode]
    split
    · rename_i hlt
      refine List.pairwise_cons.mpr ⟨?_, h⟩
      intro b hb
      rcases List.mem_cons.mp hb with rfl | hb
      · simpa [keyLE] using keyLT_asymm hlt
      · have hyb := hy b hb
        simp only [keyLE, Bool.not_eq_true'] at hyb ⊢
        by_contra hbx
        simp only [Bool.not_eq_false] at hbx
        have := keyLT_trans hbx hlt
        simp [this] at hyb
    · rename_i hnlt
      refine List.pairwise_cons.mpr ⟨?_, ih hys⟩
      intro b hb
      rcases (mem_insertNode x b ys).mp hb with rfl | hb
      · simpa [keyLE, Bool.not_eq_true'] using hnlt
      · exact hy b hb

theorem sortedBy_sortMembers_aux (l acc : List Node) (hacc : sortedBy acc) :
    sortedBy (l.foldl (fun acc m => insertNode m acc) acc) := by
  induction l generalizing acc with
  | nil => simpa
  | cons y ys ih => exact ih _ (sortedBy_insertNode hacc)

theorem sortedBy_sortMembers (l : List Node) : sortedBy (sortMembers l) :=
  sortedBy_sortMembers_aux l [] (by simp [sortedBy])

/-! ### Invariants of member resolution -/

theorem all_of_all_filter {l : List Node} {p q : Node → Bool} (h : l.all p = true) :
    (l.filter q).all p = true := by
  rw [List.all_eq_true] at h ⊢
  exact fun m hm => h m (List.mem_filter.mp hm).1

/-- Every node `membersCore` returns is a `maxDepthPromote`-adjusted
child build for an attribute that survived both the `filter` predicate
and the underscore-name skip; any Boolean property of such nodes holds
of the whole result. -/
theorem membersCore_all (p : Node → Bool) (w : Entity → String → Node) (e : Entity)
    (kind sourcefile : String) (depth md : Int)
    (hw : ∀ o nm, (strStartsWith nm "_" && nm != "__init__") = false →
      p (maxDepthPromote o (w o nm)) = true) :
    (membersCore w e kind sourcefile depth md).all p = true := by
  unfold membersCore
  split
  · rfl
  · split
    · rfl
    · rw [all_sortMembers, List.all_eq_true]
      intro m hm
      have hm' := (List.mem_filter.mp hm).1
      obtain ⟨a, ha, rfl⟩ := List.mem_map.mp hm'
      have hname := (List.mem_filter.mp ha).2
      simp only [Bool.and_eq_true, Bool.not_eq_true'] at hname
      exact hw a.2 a.1 hname.2

theorem membersCore_all_docstring (w : Entity → String → Node) (e : Entity)
    (kind sourcefile : String) (depth md : Int) :
    (membersCore w e kind sourcefile depth md).all (fun m => m.docstring.isSome) = true := by
  unfold membersCore
  split
  · rfl
  · split
    · rfl
    · rw [all_sortMembers]
      exact filter_all_self _ _

theorem membersCore_prop (w : Entity → String → Node) (e : Entity)
    (kind sourcefile : String) (depth md : Int) (hp : e.isProp = true) :
    membersCore w e kind sourcefile depth md = [] := by
  unfold membersCore
  repeat' split
  all_goals simp_all

theorem membersCore_depth_cut (w : Entity → String → Node) (e : Entity)
    (kind sourcefile : String) (depth md : Int) (h1 : md ≠ -1) (h2 : depth > md) :
    membersCore w e kind sourcefile depth md = [] := by
  unfold membersCore
  rw [if_pos ⟨h1, h2⟩]

theorem membersCore_md_congr (w w' : Entity → String → Node) (e : Entity)
    (kind sourcefile : String) (depth M : Int)
    (hw : ∀ o nm, w o nm = w' o nm) (hcut : ¬(M ≠ -1 ∧ depth > M)) :
    membersCore w e kind sourcefile depth M =
      membersCore w' e kind sourcefile depth (-1) := by
  have hfun : w = w' := funext fun o => funext fun nm => hw o nm
  subst hfun
  have h2 : ¬((-1 : Int) ≠ -1 ∧ depth > -1) := by simp
  unfold membersCore
  rw [if_neg hcut, if_neg h2]

theorem walkF_members_no_init (f : Nat) (e : Entity) (pfx nm : String) (depth md : Int) :
    (walkF f e pfx nm depth md).members.all (fun m => m.name != "__init__") = true := by
  cases f with
  | zero => rfl
  | succ f => rw [walkF_succ_members]; exact filter_all_self _ _

theorem walkF_prop_members (f : Nat) (e : Entity) (pfx nm : String) (depth md : Int)
    (hp : e.isProp = true) : (walkF f e pfx nm depth md).members = [] := by
  cases f with
  | zero => rfl
  | succ f =>
    rw [walkF_succ_members]
    rw [show get_members f e (get_kind e) (get_sourcefile_and_lineno e).1
      (member_pfx pfx nm) (depth + 1) md = [] from membersCore_prop _ _ _ _ _ _ hp]
    rfl

/-! ### The promotion loop of `walk` -/

theorem promoteStep_not_init (acc : Option Docstring) (m : Node)
    (hm : (m.name == "__init__") = false) : promoteStep acc m = acc := by
  unfold promoteStep
  rw [if_neg (by simp [hm])]

theorem promoteStep_init (acc : Option Docstring) (m : Node) (d : Docstring)
    (hm : (m.name == "__init__") = true) (hd : m.docstring = some d) :
    promoteStep acc m =
      (if strStartsWith d.firstMarkdown "Initialize self" then acc else some d) := by
  unfold promoteStep
  rw [if_pos hm, hd]

theorem promoteInit_skip (l : List Node) (acc : Option Docstring)
    (h : l.filter (fun m => m.name == "__init__") = []) :
    promoteInit l acc = acc := by
  induction l generalizing acc with
  | nil => rfl
  | cons m rest ih =>
    rw [List.filter_cons] at h
    by_cases hm : (m.name == "__init__") = true
    · rw [if_pos hm] at h
      exact absurd h (List.cons_ne_nil _ _)
    · rw [if_neg hm] at h
      show List.foldl promoteStep (promoteStep acc m) rest = acc
      rw [promoteStep_not_init acc m (by simpa using hm)]
      exact ih acc h

theorem promoteInit_single (l : List Node) (d : Docstring)
    (h : (l.filter (fun m => m.name == "__init__")).map Node.docstring = [some d]) :
    promoteInit l none =
      (if strStartsWith d.firstMarkdown "Initialize self" then none else some d) := by
  induction l with
  | nil => simp at h
  | cons m rest ih =>
    rw [List.filter_cons] at h
    by_cases hm : (m.name == "__init__") = true
    · rw [if_pos hm, List.map_cons, List.cons.injEq] at h
      obtain ⟨hd, htl⟩ := h
      have hrest : rest.filter (fun m => m.name == "__init__") = [] :=
        List.map_eq_nil_iff.mp htl
      show List.foldl promoteStep (promoteStep none m) rest = _
      rw [promoteStep_init none m d hm hd]
      split
      · exact promoteInit_skip rest none hrest
      · exact promoteInit_skip rest (some d) hrest
    · rw [if_neg hm] at h
      show List.foldl promoteStep (promoteStep none m) rest = _
      rw [promoteStep_not_init none m (by simpa using hm)]
      exact ih h

/-! ### Concrete entities for witnesses and counterexamples -/

/-- A shape with every probe at its empty/failing default, refined per
concrete entity below. -/
def defShape : Shape where
  dataclassFields := false
  isProp := false
  fset := false
  fgetSrcfile := none
  fgetLineno := none
  trueKinds := []
  signatureParams := none
  srcfile := none
  srcLineno := none
  qualname := none
  dunderName := ""
  dunderModule := ""
  docstring := none
  signature := ""

/-- An ordinary class (only `inspect.isclass` holds). -/
def eClass : Entity := .mk { defShape with
  trueKinds := ["class"]
  srcfile := some (some "c.py")
  srcLineno := some 1
  qualname := some "C" } []

/-- A dataclass (`__dataclass_fields__` present). -/
def eDataclass : Entity := .mk { defShape with
  dataclassFields := true
  trueKinds := ["class"]
  srcfile := some (some "c.py")
  srcLineno := some 1
  qualname := some "D" } []

/-- A property with a setter. -/
def ePropRW : Entity := .mk { defShape with
  isProp := true
  fset := true
  fgetSrcfile := some (some "c.py")
  fgetLineno := some 10 } []

/-- A property without a setter. -/
def ePropRO : Entity := .mk { defShape with
  isProp := true
  fgetSrcfile := some (some "c.py")
  fgetLineno := some 12 } []

/-- A generator function. -/
def eGenFn : Entity := .mk { defShape with
  trueKinds := ["function", "generatorfunction"]
  signatureParams := some ["n"]
  srcfile := some (some "m.py")
  srcLineno := some 3
  qualname := some "gen" } []

/-- A plain function whose first declared parameter is `self`. -/
def eMethod : Entity := .mk { defShape with
  trueKinds := ["function"]
  signatureParams := some ["self", "x"]
  srcfile := some (some "c.py")
  srcLineno := some 4
  qualname := some "C.f" } []

/-- A staticmethod as seen through `getattr` on the class: a plain
function whose first parameter is not `self`, with a dotted qualified
name distinct from its module path. -/
def eStaticFn : Entity := .mk { defShape with
  trueKinds := ["function"]
  signatureParams := some ["x"]
  srcfile := some (some "c.py")
  srcLineno := some 6
  qualname := some "C.s"
  dunderModule := "m" } []

/-- A classmethod as seen through `getattr` on the class: a callable
bound to the class itself, so `inspect.ismethod` holds and
`inspect.isfunction` does not. -/
def eClassmethod : Entity := .mk { defShape with
  trueKinds := ["method"]
  signatureParams := some ["cls"]
  srcfile := some (some "c.py")
  srcLineno := some 8
  qualname := some "C.cm" } []

/-- A plain module-level function. -/
def ePlainFn : Entity := .mk { defShape with
  trueKinds := ["function"]
  signatureParams := some ["a", "b"]
  srcfile := some (some "m.py")
  srcLineno := some 1
  qualname := some "f" } []

/-- An ordinary module. -/
def eModule : Entity := .mk { defShape with
  trueKinds := ["module"]
  srcfile := some (some "m.py")
  dunderName := "m" } []

/-- A package: a module whose source file is an `__init__.py`. -/
def ePackage : Entity := .mk { defShape with
  trueKinds := ["module"]
  srcfile := some (some "pkg/__init__.py")
  dunderName := "pkg" } []

/-- A built-in callable: every `ISFUNCTIONS` probe is false (only the
excluded `isbuiltin`/`isroutine` would hold), and no signature is
extractable. -/
def eBuiltin : Entity := .mk { defShape with
  trueKinds := ["builtin", "routine"] } []

/-- A native callable that `inspect.isfunction` accepts but whose
signature extraction raises. -/
def eNativeFn : Entity := .mk { defShape with
  trueKinds := ["function"]
  srcfile := some (some "m.py")
  srcLineno := some 2
  qualname := some "native" } []

/-- A documented constructor: `__init__` of `wClass`, with the docstring
from the spec's promotion example. -/
def wInitDoc : Docstring := ⟨"Creates a Widget with the given color.", ""⟩

def wInit : Entity := .mk { defShape with
  trueKinds := ["function"]
  signatureParams := some ["self", "color"]
  srcfile := some (some "w.py")
  srcLineno := some 5
  qualname := some "Widget.__init__"
  docstring := some wInitDoc } []

/-- A class with no docstring of its own and a documented constructor. -/
def wClass : Entity := .mk { defShape with
  trueKinds := ["class"]
  srcfile := some (some "w.py")
  srcLineno := some 1
  qualname := some "Widget" } [("__init__", wInit)]

/-- An undocumented-constructor docstring: the Python boilerplate
auto-text. -/
def bInitDoc : Docstring := ⟨"Initialize self.  See help(type(self)) for accurate signature.", ""⟩

def bInit : Entity := .mk { defShape with
  trueKinds := ["function"]
  signatureParams := some ["self"]
  srcfile := some (some "w.py")
  srcLineno := some 15
  qualname := some "Blank.__init__"
  docstring := some bInitDoc } []

/-- A class with no docstring whose constructor carries only the
boilerplate docstring. -/
def bClass : Entity := .mk { defShape with
  trueKinds := ["class"]
  srcfile := some (some "w.py")
  srcLineno := some 11
  qualname := some "Blank" } [("__init__", bInit)]

/-- Documented method defined in `b.py` at line 1. -/
def cxF : Entity := .mk { defShape with
  trueKinds := ["function"]
  signatureParams := some ["self"]
  srcfile := some (some "b.py")
  srcLineno := some 1
  qualname := some "X.f"
  docstring := some ⟨"Does f.", ""⟩ } []

/-- Documented method defined in `a.py` at line 2. -/
def cxG : Entity := .mk { defShape with
  trueKinds := ["function"]
  signatureParams := some ["self"]
  srcfile := some (some "a.py")
  srcLineno := some 2
  qualname := some "X.g"
  docstring := some ⟨"Does g.", ""⟩ } []

/-- A class with two documented members living in different source
files (as inherited members do). -/
def cxClass : Entity := .mk { defShape with
  trueKinds := ["class"]
  srcfile := some (some "b.py")
  srcLineno := some 1
  qualname := some "X" } [("f", cxF), ("g", cxG)]

/-- A documented, filter-passing well-formed dunder member. -/
def c7Call : Entity := .mk { defShape with
  trueKinds := ["function"]
  signatureParams := some ["self"]
  srcfile := some (some "c.py")
  srcLineno := some 3
  qualname := some "C7.__call__"
  docstring := some ⟨"Calls the object.", ""⟩ } []

/-- A class whose only candidate member is the documented `__call__`. -/
def c7Class : Entity := .mk { defShape with
  trueKinds := ["class"]
  srcfile := some (some "c.py")
  srcLineno := some 1
  qualname := some "C7" } [("__call__", c7Call)]

/-- A one-module import table for the resolution-failure witness. -/
def w9mods : List (String × Entity) := [("mkapi", eModule)]

/-! ### Further helper lemmas for the depth-limit claims -/

theorem walkF_members_cut (g : Nat) (o : Entity) (pfx nm : String) (depth md : Int)
    (h1 : md ≠ -1) (h2 : depth + 1 > md) : (walkF g o pfx nm depth md).members = [] := by
  cases g with
  | zero => rfl
  | succ g =>
    rw [walkF_succ_members]
    rw [show get_members g o (get_kind o) (get_sourcefile_and_lineno o).1
      (member_pfx pfx nm) (depth + 1) md = [] from
        membersCore_depth_cut _ _ _ _ _ _ h1 h2]
    rfl

theorem walkF_md1_members_leaf (f : Nat) (e : Entity) (pfx nm : String) :
    ((walkF f e pfx nm 0 1).members.all fun m => m.members.isEmpty) = true := by
  cases f with
  | zero => rfl
  | succ g =>
    rw [walkF_succ_members]
    apply all_of_all_filter
    unfold get_members
    apply membersCore_all
    intro o nm2 _
    rw [maxDepthPromote_members]
    rw [walkF_members_cut g o (member_pfx pfx nm) nm2 (0 + 1) 1 (by norm_num) (by norm_num)]
    rfl

theorem walkF_md_unlimited (f : Nat) : ∀ (e : Entity) (pfx nm : String) (depth M : Int),
    depth + (f : Int) ≤ M → walkF f e pfx nm depth M = walkF f e pfx nm depth (-1) := by
  induction f with
  | zero => intro e pfx nm depth M _; rfl
  | succ g ih =>
    intro e pfx nm depth M h
    have hM : depth + 1 + (g : Int) ≤ M := by push_cast at h; omega
    have hcut : ¬(M ≠ -1 ∧ depth + 1 > M) := by
      rintro ⟨_, hgt⟩
      have : (0 : Int) ≤ (g : Int) := Int.natCast_nonneg g
      omega
    have hm := membersCore_md_congr
      (fun o nm2 => walkF g o (member_pfx pfx nm) nm2 (depth + 1) M)
      (fun o nm2 => walkF g o (member_pfx pfx nm) nm2 (depth + 1) (-1))
      e (get_kind e) (get_sourcefile_and_lineno e).1 (depth + 1) M
      (fun o nm2 => ih o (member_pfx pfx nm) nm2 (depth + 1) M hM) hcut
    simp only [walkF]
    rw [hm]

/-! ### Fuel adequacy

`walkF` below `Entity.fuel` never reaches the fuel-0 placeholder: the
result is the same at `Entity.fuel` and at every larger fuel, so `walk`
is the exact value of the (always-terminating) Python recursion and the
fuel index is a proof artifact only. -/

theorem fuel_pos (e : Entity) : 0 < e.fuel := by
  cases e with
  | mk s a =>
    show 0 < 1 + attrsFuel a
    omega

theorem fuel_eq (e : Entity) : e.fuel = 1 + attrsFuel e.attrs := by
  cases e with
  | mk s a => rfl

theorem attrsFuel_mem {attrs : List (String × Entity)} {p : String × Entity}
    (h : p ∈ attrs) : p.2.fuel ≤ attrsFuel attrs := by
  induction attrs with
  | nil => cases h
  | cons q rest ih =>
    rcases List.mem_cons.mp h with rfl | h
    · show p.2.fuel ≤ p.2.fuel + attrsFuel rest
      omega
    · have := ih h
      show p.2.fuel ≤ q.2.fuel + attrsFuel rest
      omega

theorem membersCore_congr (w w' : Entity → String → Node) (e : Entity)
    (kind sourcefile : String) (depth md : Int)
    (hw : ∀ p ∈ e.attrs, w p.2 p.1 = w' p.2 p.1) :
    membersCore w e kind sourcefile depth md =
      membersCore w' e kind sourcefile depth md := by
  unfold membersCore
  split
  · rfl
  · split
    · rfl
    · show sortMembers (List.filter _
          (List.map (fun (p : String × Entity) => maxDepthPromote p.2 (w p.2 p.1)) _)) =
        sortMembers (List.filter _
          (List.map (fun (p : String × Entity) => maxDepthPromote p.2 (w' p.2 p.1)) _))
      rw [List.map_congr_left (fun p hp => by
        rw [hw p (List.mem_filter.mp hp).1])]

theorem walkF_fuel_adequate : ∀ (f : Nat) (e : Entity) (pfx nm : String)
    (depth md : Int), e.fuel ≤ f →
    walkF f e pfx nm depth md = walkF e.fuel e pfx nm depth md := by
  intro f
  induction f using Nat.strong_induction_on with
  | _ f IH =>
    intro e pfx nm depth md hf
    obtain ⟨f', rfl⟩ : ∃ f', f = f' + 1 :=
      ⟨f - 1, by have := fuel_pos e; omega⟩
    obtain ⟨u, hu⟩ : ∃ u, e.fuel = u + 1 :=
      ⟨e.fuel - 1, by have := fuel_pos e; omega⟩
    have hue : u = attrsFuel e.attrs := by have := fuel_eq e; omega
    rw [hu]
    simp only [walkF]
    have hcong := membersCore_congr
      (fun o nm2 => walkF f' o (member_pfx pfx nm) nm2 (depth + 1) md)
      (fun o nm2 => walkF u o (member_pfx pfx nm) nm2 (depth + 1) md)
      e (get_kind e) (get_sourcefile_and_lineno e).1 (depth + 1) md
      (fun p hp => by
        have hb : p.2.fuel ≤ attrsFuel e.attrs := attrsFuel_mem hp
        have h1 : p.2.fuel ≤ f' := by have := fuel_eq e; omega
        have h2 : p.2.fuel ≤ u := by omega
        show walkF f' p.2 (member_pfx pfx nm) p.1 (depth + 1) md =
          walkF u p.2 (member_pfx pfx nm) p.1 (depth + 1) md
        rw [IH f' (by omega) p.2 _ _ _ _ h1, IH u (by omega) p.2 _ _ _ _ h2])
    rw [hcong]

/-- `walk` equals `walkF` at any fuel at least `Entity.fuel`: the
embedding is fuel-independent above the adequate bound. -/
theorem walk_eq_walkF (f : Nat) (e : Entity) (pfx nm : String) (depth md : Int)
    (hf : e.fuel ≤ f) : walkF f e pfx nm depth md = walk e pfx nm depth md :=
  walkF_fuel_adequate f e pfx nm depth md hf

/-! ### Depth-one member preservation

At `max_depth = 1` the guard cuts only the grandchildren: the root's
members are the members of the unlimited build with the same name, kind,
docstring and source location.  The only interaction is docstring
promotion — a depth-limited class member misses the promotion loop of
`walk` (its own members list is empty), but the `get_members` docstring
fix (source comment: "needed for max_depth") recovers the same docstring
from the member's `__init__` attribute.  The equivalence needs two facts
that hold of every real Python object: `inspect.getmembers` yields each
attribute name once, and an `__init__` attribute is not itself a
class/dataclass. -/

/-- The identity of a published member: name, kind, docstring and source
location (everything except the subtree and the docstring-derived type
field). -/
def memberView (m : Node) : String × String × Option Docstring × String × Int :=
  (m.name, m.kind, m.docstring, m.sourcefile, m.lineno)

theorem Node.withDocstring_sourcefile (n : Node) (ds : Option Docstring) :
    (n.withDocstring ds).sourcefile = n.sourcefile := by
  cases n; rfl

theorem Node.withDocstring_lineno (n : Node) (ds : Option Docstring) :
    (n.withDocstring ds).lineno = n.lineno := by
  cases n; rfl

theorem Node.withDocstring_docstring (n : Node) (ds : Option Docstring) :
    (n.withDocstring ds).docstring = ds := by
  cases n; rfl

theorem maxDepthPromote_kind (o : Entity) (n : Node) :
    (maxDepthPromote o n).kind = n.kind := by
  unfold maxDepthPromote
  repeat' split
  all_goals simp [Node.withDocstring_kind]

theorem maxDepthPromote_sourcefile (o : Entity) (n : Node) :
    (maxDepthPromote o n).sourcefile = n.sourcefile := by
  unfold maxDepthPromote
  repeat' split
  all_goals simp [Node.withDocstring_sourcefile]

theorem maxDepthPromote_lineno (o : Entity) (n : Node) :
    (maxDepthPromote o n).lineno = n.lineno := by
  unfold maxDepthPromote
  repeat' split
  all_goals simp [Node.withDocstring_lineno]

/-- The docstring the `get_members` fix would take from `o.__init__`:
the parsed constructor docstring when it exists and is not the
"Initialize self" boilerplate, `none` otherwise. -/
def gateA (o : Entity) : Option Docstring :=
  match lookupAttr o "__init__" with
  | some ini =>
    match ini.docstring with
    | some ds =>
      if strStartsWith ds.firstMarkdown "Initialize self" then none else some ds
    | none => none
  | none => none

theorem maxDepthPromote_docstring (o : Entity) (n : Node) :
    (maxDepthPromote o n).docstring =
      (if (n.kind = "class" ∨ n.kind = "dataclass") ∧ n.docstring = none
       then gateA o else n.docstring) := by
  by_cases hc : (n.kind = "class" ∨ n.kind = "dataclass") ∧ n.docstring = none
  · rw [if_pos hc]
    unfold maxDepthPromote gateA
    rw [if_pos hc]
    cases hL : lookupAttr o "__init__" with
    | none => simp [hc.2]
    | some ini =>
      cases hd : ini.docstring with
      | none => simp [hd, hc.2]
      | some ds =>
        by_cases hb : strStartsWith ds.firstMarkdown "Initialize self" = true
        · simp [hd, hb, hc.2]
        · simp [hd, hb, Node.withDocstring_docstring]
  · rw [if_neg hc]
    unfold maxDepthPromote
    rw [if_neg hc]

/-- A promotion loop that produced a docstring got it from a documented,
non-boilerplate `__init__` member, unless it was the accumulator. -/
theorem promoteInit_some : ∀ (l : List Node) (acc : Option Docstring) (v : Docstring),
    List.foldl promoteStep acc l = some v →
    (∃ m ∈ l, m.name = "__init__" ∧ m.docstring = some v ∧
      strStartsWith v.firstMarkdown "Initialize self" = false) ∨ acc = some v
  | [], _, _, h => Or.inr h
  | m :: rest, acc, v, h => by
    rw [List.foldl_cons] at h
    rcases promoteInit_some rest (promoteStep acc m) v h with hex | hacc
    · obtain ⟨m', hm', hp⟩ := hex
      exact Or.inl ⟨m', List.mem_cons_of_mem _ hm', hp⟩
    · unfold promoteStep at hacc
      by_cases hn : (m.name == "__init__") = true
      · rw [if_pos hn] at hacc
        cases hd : m.docstring with
        | none => simp only [hd] at hacc; exact Or.inr hacc
        | some ds =>
          simp only [hd] at hacc
          by_cases hb : strStartsWith ds.firstMarkdown "Initialize self" = true
          · rw [if_pos hb] at hacc
            exact Or.inr hacc
          · rw [if_neg hb] at hacc
            obtain rfl : ds = v := by simpa using hacc
            exact Or.inl ⟨m, List.mem_cons_self _ _,
              by simpa using hn, hd, by simpa using hb⟩
      · rw [if_neg hn] at hacc
        exact Or.inr hacc

theorem find_attr_of_nodup : ∀ (l : List (String × Entity)) (nm : String) (x : Entity),
    (l.map Prod.fst).Nodup → (nm, x) ∈ l →
    (l.find? (fun p => p.1 == nm)).map (fun p => p.2) = some x
  | [], _, _, _, hmem => absurd hmem (List.not_mem_nil _)
  | q :: rest, nm, x, hnd, hmem => by
    rw [List.map_cons, List.nodup_cons] at hnd
    by_cases hq : (q.1 == nm) = true
    · rw [show List.find? (fun p => p.1 == nm) (q :: rest) = some q from
        List.find?_cons_of_pos rest hq]
      show some q.2 = some x
      rcases List.mem_cons.mp hmem with heq | hrest
      · rw [← heq]
      · exfalso
        have hmm : nm ∈ rest.map Prod.fst := List.mem_map.mpr ⟨(nm, x), hrest, rfl⟩
        have hq1 : q.1 = nm := by simpa using hq
        exact hnd.1 (hq1 ▸ hmm)
    · rw [show List.find? (fun p => p.1 == nm) (q :: rest) =
        List.find? (fun p => p.1 == nm) rest from
          List.find?_cons_of_neg rest (by simpa using hq)]
      rcases List.mem_cons.mp hmem with heq | hrest
      · exfalso
        rw [← heq] at hq
        simp at hq
      · exact find_attr_of_nodup rest nm x hnd.2 hrest

theorem lookupAttr_of_nodup {e : Entity} {nm : String} {x : Entity}
    (hnd : (e.attrs.map Prod.fst).Nodup) (hmem : (nm, x) ∈ e.attrs) :
    lookupAttr e nm = some x :=
  find_attr_of_nodup e.attrs nm x hnd hmem

theorem mem_membersCore {w : Entity → String → Node} {e : Entity}
    {k sf : String} {d md : Int} {m : Node}
    (h : m ∈ membersCore w e k sf d md) :
    ∃ p ∈ e.attrs, m = maxDepthPromote p.2 (w p.2 p.1) := by
  unfold membersCore at h
  split at h
  · simp at h
  · split at h
    · simp at h
    · rw [mem_sortMembers] at h
      have h1 := (List.mem_filter.mp h).1
      obtain ⟨p, hp, rfl⟩ := List.mem_map.mp h1
      exact ⟨p, (List.mem_filter.mp hp).1, rfl⟩

theorem walkF_succ_kind (f : Nat) (e : Entity) (pfx nm : String) (depth md : Int) :
    (walkF (f + 1) e pfx nm depth md).kind = get_kind e := rfl

theorem walkF_succ_sourcefile (f : Nat) (e : Entity) (pfx nm : String) (depth md : Int) :
    (walkF (f + 1) e pfx nm depth md).sourcefile =
      (get_sourcefile_and_lineno e).1 := rfl

theorem walkF_succ_lineno (f : Nat) (e : Entity) (pfx nm : String) (depth md : Int) :
    (walkF (f + 1) e pfx nm depth md).lineno =
      (get_sourcefile_and_lineno e).2 := rfl

/-- At depth 1 with `max_depth = 1` the walk's own members list is cut,
so its docstring is the entity's, nulled only by the (vacuous) promotion
branch. -/
theorem walkF_md1_docstring (h : Nat) (o : Entity) (pfx nm : String) :
    (walkF (h + 1) o pfx nm 1 1).docstring =
      (if (get_kind o = "class" ∨ get_kind o = "dataclass") ∧ o.docstring = none
       then none else o.docstring) := by
  rw [walkF_succ_docstring]
  rw [show get_members h o (get_kind o) (get_sourcefile_and_lineno o).1
    (member_pfx pfx nm) (1 + 1) 1 = [] from
      membersCore_depth_cut _ _ _ _ _ _ (by norm_num) (by norm_num)]
  by_cases hc : (get_kind o = "class" ∨ get_kind o = "dataclass") ∧ o.docstring = none
  · rw [if_pos hc, if_pos hc, hc.2]
    rfl
  · rw [if_neg hc, if_neg hc]

theorem keyLT_view {a b a' b' : Node} (ha : memberView a = memberView a')
    (hb : memberView b = memberView b') : keyLT a b = keyLT a' b' := by
  simp only [memberView, Prod.mk.injEq] at ha hb
  rw [keyLT, keyLT, ha.2.2.2.1, ha.2.2.2.2, hb.2.2.2.1, hb.2.2.2.2]

theorem insertNode_view : ∀ {l l' : List Node} {x x' : Node},
    memberView x = memberView x' → l.map memberView = l'.map memberView →
    (insertNode x l).map memberView = (insertNode x' l').map memberView
  | [], l', x, x', hx, hl => by
    have hl' : l' = [] := by simpa using hl.symm
    subst hl'
    simp [insertNode, hx]
  | y :: ys, l', x, x', hx, hl => by
    cases l' with
    | nil => simp at hl
    | cons y' ys' =>
      simp only [List.map_cons, List.cons.injEq] at hl
      obtain ⟨hy, hys⟩ := hl
      simp only [insertNode]
      rw [keyLT_view hx hy]
      by_cases hk : keyLT x' y' = true
      · rw [if_pos hk, if_pos hk]
        simp only [List.map_cons, List.cons.injEq]
        exact ⟨hx, hy, hys⟩
      · rw [if_neg hk, if_neg hk]
        simp only [List.map_cons, List.cons.injEq]
        exact ⟨hy, insertNode_view hx hys⟩

theorem sortMembers_view_aux : ∀ (l l' acc acc' : List Node),
    l.map memberView = l'.map memberView →
    acc.map memberView = acc'.map memberView →
    (l.foldl (fun a m => insertNode m a) acc).map memberView =
      (l'.foldl (fun a m => insertNode m a) acc').map memberView
  | [], l', _, _, hl, ha => by
    have hl' : l' = [] := by simpa using hl.symm
    subst hl'
    simpa using ha
  | y :: ys, l', acc, acc', hl, ha => by
    cases l' with
    | nil => simp at hl
    | cons y' ys' =>
      simp only [List.map_cons, List.cons.injEq] at hl
      obtain ⟨hy, hys⟩ := hl
      simp only [List.foldl_cons]
      exact sortMembers_view_aux ys ys' _ _ hys (insertNode_view hy ha)

theorem sortMembers_view {l l' : List Node}
    (h : l.map memberView = l'.map memberView) :
    (sortMembers l).map memberView = (sortMembers l').map memberView :=
  sortMembers_view_aux l l' [] [] h rfl

theorem filter_view (p : Node → Bool)
    (hp : ∀ a b, memberView a = memberView b → p a = p b) :
    ∀ {l l' : List Node}, l.map memberView = l'.map memberView →
    (l.filter p).map memberView = (l'.filter p).map memberView
  | [], l', h => by
    have hl' : l' = [] := by simpa using h.symm
    subst hl'
    rfl
  | y :: ys, l', h => by
    cases l' with
    | nil => simp at h
    | cons y' ys' =>
      simp only [List.map_cons, List.cons.injEq] at h
      obtain ⟨hy, hys⟩ := h
      rw [List.filter_cons, List.filter_cons, hp y y' hy]
      by_cases hq : p y' = true
      · rw [if_pos hq, if_pos hq]
        simp only [List.map_cons, List.cons.injEq]
        exact ⟨hy, filter_view p hp hys⟩
      · rw [if_neg hq, if_neg hq]
        exact filter_view p hp hys

theorem walkF_zero_kind (e : Entity) (pfx nm : String) (depth md : Int) :
    (walkF 0 e pfx nm depth md).kind = "" := rfl

theorem walkF_zero_docstring (e : Entity) (pfx nm : String) (depth md : Int) :
    (walkF 0 e pfx nm depth md).docstring = none := rfl

/-- A built member whose entity is not class/dataclass-kind carries the
entity's own docstring (or none at exhausted fuel): neither promotion
step touches it. -/
theorem build_docstring_of_plain (h : Nat) (o2 : Entity) (pfx nm : String)
    (d md : Int) (hk : ¬(get_kind o2 = "class" ∨ get_kind o2 = "dataclass")) :
    (maxDepthPromote o2 (walkF h o2 pfx nm d md)).docstring = none ∨
    (maxDepthPromote o2 (walkF h o2 pfx nm d md)).docstring = o2.docstring := by
  rw [maxDepthPromote_docstring]
  cases h with
  | zero =>
    rw [walkF_zero_kind, if_neg (by simp)]
    exact Or.inl (walkF_zero_docstring _ _ _ _ _)
  | succ t =>
    rw [walkF_succ_kind, if_neg (fun hcm => hk hcm.1)]
    rw [walkF_succ_docstring, if_neg (fun hcq => hk hcq.1)]
    exact Or.inr rfl

/-- The core of depth-one member preservation: one child built at
`max_depth = 1` (members cut, docstring fix applied) presents the same
view as the same child built with no depth limit (walk-level promotion,
docstring fix applied), given the two Python-shape facts about the
child's attributes. -/
theorem childView_md1 (g : Nat) (o : Entity) (pfx nm : String)
    (hnd : (o.attrs.map Prod.fst).Nodup)
    (hik : ∀ q ∈ o.attrs, q.1 = "__init__" →
      ¬(get_kind q.2 = "class" ∨ get_kind q.2 = "dataclass")) :
    memberView (maxDepthPromote o (walkF g o pfx nm 1 1)) =
      memberView (maxDepthPromote o (walkF g o pfx nm 1 (-1))) := by
  cases g with
  | zero => rfl
  | succ h =>
    simp only [memberView, maxDepthPromote_name, maxDepthPromote_kind,
      maxDepthPromote_sourcefile, maxDepthPromote_lineno, walkF_name,
      walkF_succ_kind, walkF_succ_sourcefile, walkF_succ_lineno,
      Prod.mk.injEq, true_and]
    refine ⟨?_, trivial⟩
    rw [maxDepthPromote_docstring, maxDepthPromote_docstring,
      walkF_succ_kind, walkF_succ_kind, walkF_md1_docstring, walkF_succ_docstring]
    by_cases hc : (get_kind o = "class" ∨ get_kind o = "dataclass") ∧ o.docstring = none
    · rw [if_pos hc, if_pos hc, hc.2, if_pos ⟨hc.1, rfl⟩]
      set M := get_members h o (get_kind o) (get_sourcefile_and_lineno o).1
        (member_pfx pfx nm) (1 + 1) (-1) with hMdef
      cases hP : promoteInit M none with
      | none => rw [if_pos ⟨hc.1, rfl⟩]
      | some v =>
        rw [if_neg (by simp)]
        rcases promoteInit_some M none v hP with hex | habs
        · obtain ⟨m, hmM, hname, hdoc, hnb⟩ := hex
          obtain ⟨q, hqe, rfl⟩ := mem_membersCore (hMdef ▸ hmM)
          have hqname : q.1 = "__init__" := by
            rw [← hname, maxDepthPromote_name, walkF_name]
          have hqkind := hik q hqe hqname
          have hmdoc : q.2.docstring = some v := by
            rcases build_docstring_of_plain h q.2 (member_pfx pfx nm) q.1
              (1 + 1) (-1) hqkind with h0 | h1
            · rw [h0] at hdoc
              exact absurd hdoc (by simp)
            · rw [h1] at hdoc
              exact hdoc
          have hL : lookupAttr o "__init__" = some q.2 :=
            lookupAttr_of_nodup hnd (hqname ▸ hqe)
          unfold gateA
          simp [hL, hmdoc, hnb]
        · exact absurd habs (by simp)
    · simp only [if_neg hc]

/-- Member resolution at depth 1 under `max_depth = 1` yields the same
member views as under no depth limit. -/
theorem get_members_md1_view (u : Nat) (e : Entity) (k sf pfx' : String)
    (H : ∀ p ∈ e.attrs, (p.2.attrs.map Prod.fst).Nodup ∧
      ∀ q ∈ p.2.attrs, q.1 = "__init__" →
        ¬(get_kind q.2 = "class" ∨ get_kind q.2 = "dataclass")) :
    (get_members u e k sf pfx' 1 1).map memberView =
      (get_members u e k sf pfx' 1 (-1)).map memberView := by
  unfold get_members membersCore
  rw [if_neg (by norm_num : ¬((1 : Int) ≠ -1 ∧ (1 : Int) > 1)),
    if_neg (by norm_num : ¬((-1 : Int) ≠ -1 ∧ (1 : Int) > -1))]
  by_cases hp : e.isProp = true
  · rw [if_pos hp, if_pos hp]
  · rw [if_neg hp, if_neg hp]
    apply sortMembers_view
    apply filter_view _ (fun a b hab => by
      simp only [memberView, Prod.mk.injEq] at hab
      show a.docstring.isSome = b.docstring.isSome
      rw [hab.2.2.1])
    rw [List.map_map, List.map_map]
    apply List.map_congr_left
    intro p hpA
    have hpe : p ∈ e.attrs := (List.mem_filter.mp hpA).1
    exact childView_md1 u p.2 pfx' p.1 (H p hpe).1 (H p hpe).2

/-! ### The claims -/

/-- C1: for every container entity classified `class` or `dataclass`
that has no docstring of its own, if the members computed before the
`__init__` filter contain exactly one documented member named
`__init__`, then the built container node's docstring equals that
constructor docstring when its first section's text does not start with
"Initialize self", and stays absent when it does. -/
theorem claim_C1_promotion_gating (f : Nat) (e : Entity) (pfx nm : String)
    (depth md : Int) (d : Docstring)
    (hk : get_kind e = "class" ∨ get_kind e = "dataclass")
    (hd : e.docstring = none)
    (hm : ((get_members f e (get_kind e) (get_sourcefile_and_lineno e).1
        (member_pfx pfx nm) (depth + 1) md).filter
          (fun m => m.name == "__init__")).map Node.docstring = [some d]) :
    (walkF (f + 1) e pfx nm depth md).docstring =
      if strStartsWith d.firstMarkdown "Initialize self" then none else some d := by
  rw [walkF_succ_docstring, if_pos ⟨hk, hd⟩, hd]
  exact promoteInit_single _ d hm

/-- Witness for C1: `wClass` (constructor docstring "Creates a Widget
with the given color.") gets the docstring promoted; `bClass`
(constructor docstring starting "Initialize self.") keeps no
docstring. -/
theorem claim_C1_witness :
    ((get_members 1 wClass (get_kind wClass) (get_sourcefile_and_lineno wClass).1
      (member_pfx "" "Widget") (0 + 1) (-1)).filter
        (fun m => m.name == "__init__")).map Node.docstring = [some wInitDoc] ∧
    (walkF (1 + 1) wClass "" "Widget" 0 (-1)).docstring =
      (if strStartsWith wInitDoc.firstMarkdown "Initialize self" then none
       else some wInitDoc) ∧
    ((get_members 1 bClass (get_kind bClass) (get_sourcefile_and_lineno bClass).1
      (member_pfx "" "Blank") (0 + 1) (-1)).filter
        (fun m => m.name == "__init__")).map Node.docstring = [some bInitDoc] ∧
    (walkF (1 + 1) bClass "" "Blank" 0 (-1)).docstring =
      (if strStartsWith bInitDoc.firstMarkdown "Initialize self" then none
       else some bInitDoc) :=
  ⟨by decide,
   claim_C1_promotion_gating 1 wClass "" "Widget" 0 (-1) wInitDoc
     (Or.inl (by decide)) (by decide) (by decide),
   by decide,
   claim_C1_promotion_gating 1 bClass "" "Blank" 0 (-1) bInitDoc
     (Or.inl (by decide)) (by decide) (by decide)⟩

/-- C2: for every entity, the final members sequence of the built node
contains no entry named `__init__`, regardless of promotion and of
whether the constructor was documented. -/
theorem claim_C2_no_init_in_members (e : Entity) (pfx nm : String) (depth md : Int) :
    (walk e pfx nm depth md).members.all (fun m => m.name != "__init__") = true :=
  walkF_members_no_init e.fuel e pfx nm depth md

/-- C3: every node in a members sequence produced by member resolution
has a docstring; a candidate child whose built node ends up with no
docstring is dropped, not retained. -/
theorem claim_C3_members_documented (f : Nat) (e : Entity)
    (kind sourcefile pfx : String) (depth md : Int) :
    (get_members f e kind sourcefile pfx depth md).all
      (fun m => m.docstring.isSome) = true :=
  membersCore_all_docstring _ e kind sourcefile depth md

/-- The ordering claimed for C4, modelled from the spec: the claimed key
is `(-origin_index, source_line)`, and the code never assigns an
inheritance-origin index, so all origin indexes coincide and the claimed
order reduces to ascending source line. -/
def ascendingByLineno : List Int → Bool
  | [] => true
  | [_] => true
  | a :: b :: r => decide (a ≤ b) && ascendingByLineno (b :: r)

/-- Counterexample to C4: a class with two documented members, one in
`b.py` line 1 and one in `a.py` line 2.  The produced members sequence
is `[g (a.py, 2), f (b.py, 1)]` — ordered by source file first — and its
line numbers are not ascending, contradicting the claimed
`(-origin_index, source_line)` key. -/
theorem claim_C4_counterexample :
    (get_members 1 cxClass (get_kind cxClass) (get_sourcefile_and_lineno cxClass).1
      (member_pfx "" "X") (0 + 1) (-1)).map
        (fun m => (m.name, m.sourcefile, m.lineno)) =
      [("g", "a.py", 2), ("f", "b.py", 1)] ∧
    ascendingByLineno ((get_members 1 cxClass (get_kind cxClass)
      (get_sourcefile_and_lineno cxClass).1 (member_pfx "" "X") (0 + 1) (-1)).map
        Node.lineno) = false := by
  decide

/-- C4 amended: the members sequence returned by member resolution is
stably sorted by the key `(sourcefile, source_line)`, both ascending —
there is no origin-index component. -/
theorem claim_C4_sorted_by_sourcefile_line (f : Nat) (e : Entity)
    (kind sourcefile pfx : String) (depth md : Int) :
    sortedBy (get_members f e kind sourcefile pfx depth md) := by
  unfold get_members membersCore
  split
  · simp [sortedBy]
  · split
    · simp [sortedBy]
    · exact sortedBy_sortMembers _

/-- Counterexample to C5: the classifier never produces `"classmethod"`
or `"staticmethod"`.  A class-bound callable bound to the class itself
(`inspect.ismethod` holds) classifies as `"method"`, and a
staticmethod-shaped callable (plain function, first parameter not
`self`, dotted qualified name) classifies as `"function"`. -/
theorem claim_C5_counterexample :
    get_kind eClassmethod = "method" ∧ get_kind eClassmethod ≠ "classmethod" ∧
    get_kind eStaticFn = "function" ∧ get_kind eStaticFn ≠ "staticmethod" := by
  decide

/-- C5 amended: on the representative shapes, `get_kind` returns
`class`, `dataclass`, `readwrite_property`, `readonly_property`,
`generator`, `method`, `function` (for the staticmethod shape),
`method` (for the classmethod shape), `function`, `module`, and
`package` respectively. -/
theorem claim_C5_classifier_shapes :
    get_kind eClass = "class" ∧
    get_kind eDataclass = "dataclass" ∧
    get_kind ePropRW = "readwrite_property" ∧
    get_kind ePropRO = "readonly_property" ∧
    get_kind eGenFn = "generator" ∧
    get_kind eMethod = "method" ∧
    get_kind eStaticFn = "function" ∧
    get_kind eClassmethod = "method" ∧
    get_kind ePlainFn = "function" ∧
    get_kind eModule = "module" ∧
    get_kind ePackage = "package" := by
  decide

/-- C6: `get_kind` is a total Lean function (the embedding maps every
probe failure the Python code catches to a value), and it returns `""`
both for entities on which every classification probe fails (built-ins)
and for function-probed entities whose signature extraction raises. -/
theorem claim_C6_classifier_total (e : Entity) :
    (e.dataclassFields = false → e.isProp = false → get_kinds e = [] →
      get_kind e = "") ∧
    (e.dataclassFields = false → e.isProp = false →
      (get_kinds e).contains "function" = true →
      (get_kinds e).contains "generatorfunction" = false →
      e.signatureParams = none → get_kind e = "") := by
  constructor
  · intro h1 h2 h3
    simp [get_kind, h1, h2, h3]
  · intro h1 h2 h3 h4 h5
    have hne : ¬(get_kinds e = []) := by
      intro hnil
      rw [hnil] at h3
      simp at h3
    have h3' : "function" ∈ get_kinds e := by simpa using h3
    have h4' : "generatorfunction" ∉ get_kinds e := by simpa using h4
    simp [get_kind, h1, h2, hne, h3', h4', h5]

/-- Witness for C6: the built-in shape and the unintrospectable native
callable both classify as `""`. -/
theorem claim_C6_witness :
    (get_kinds eBuiltin = [] ∧ get_kind eBuiltin = "") ∧
    (eNativeFn.signatureParams = none ∧ get_kind eNativeFn = "") :=
  ⟨⟨by decide,
    (claim_C6_classifier_total eBuiltin).1 (by decide) (by decide) (by decide)⟩,
   ⟨by decide,
    (claim_C6_classifier_total eNativeFn).2 (by decide) (by decide) (by decide)
      (by decide) (by decide)⟩⟩

/-- Counterexample to C7: the member `__call__` of `c7Class` is a
documented, well-formed dunder that passes the value filter, yet member
resolution drops it — the name skip excludes every name starting with
an underscore except exactly `__init__`. -/
theorem claim_C7_counterexample :
    filter c7Call "C7" "" = true ∧
    c7Call.docstring.isSome = true ∧
    (get_members 1 c7Class (get_kind c7Class) (get_sourcefile_and_lineno c7Class).1
      (member_pfx "" "C7") (0 + 1) (-1)).map Node.name = [] := by
  decide

/-- C7 amended: during member discovery every child whose name starts
with an underscore — `__func__`, `__self__`, single-underscore names,
malformed dunders, and well-formed dunders alike — is excluded, with
`__init__` as the only exception. -/
theorem claim_C7_underscore_exclusion (f : Nat) (e : Entity)
    (kind sourcefile pfx : String) (depth md : Int) :
    (get_members f e kind sourcefile pfx depth md).all
      (fun m => !(strStartsWith m.name "_") || m.name == "__init__") = true := by
  unfold get_members
  apply membersCore_all
  intro o nm hnm
  rw [maxDepthPromote_name, walkF_name]
  rcases Bool.and_eq_false_iff.mp hnm with h | h
  · simp [h]
  · have hi : (nm == "__init__") = true := by simpa [bne] using h
    simp [hi]

/-- C8: building with `max_depth = 0` yields a root with an empty
members sequence; building with `max_depth = 1` yields a root *with*
members — exactly the members of the unlimited build, with the same
name, kind, docstring and source location (given that each child's
attribute names are distinct and its `__init__` attribute is not itself
a class, as for every real Python object) — but every member node has
an empty members sequence; and with `max_depth = -1` the walk coincides
with the walk under any bound large enough never to cut (no recursion
limit). -/
theorem claim_C8_depth_limiting :
    (∀ (e : Entity) (pfx nm : String), (walk e pfx nm 0 0).members = []) ∧
    (∀ (e : Entity) (pfx nm : String),
      ((walk e pfx nm 0 1).members.all fun m => m.members.isEmpty) = true) ∧
    (∀ (e : Entity) (pfx nm : String),
      (∀ p ∈ e.attrs, (p.2.attrs.map Prod.fst).Nodup ∧
        ∀ q ∈ p.2.attrs, q.1 = "__init__" →
          ¬(get_kind q.2 = "class" ∨ get_kind q.2 = "dataclass")) →
      (walk e pfx nm 0 1).members.map memberView =
        (walk e pfx nm 0 (-1)).members.map memberView) ∧
    (∀ (f : Nat) (e : Entity) (pfx nm : String) (depth M : Int),
      depth + (f : Int) ≤ M →
      walkF f e pfx nm depth M = walkF f e pfx nm depth (-1)) := by
  refine ⟨fun e pfx nm => walkF_members_cut e.fuel e pfx nm 0 0 (by norm_num) (by norm_num),
    fun e pfx nm => walkF_md1_members_leaf e.fuel e pfx nm,
    fun e pfx nm H => ?_,
    fun f e pfx nm depth M h => walkF_md_unlimited f e pfx nm depth M h⟩
  obtain ⟨u, hu⟩ : ∃ u, e.fuel = u + 1 :=
    ⟨e.fuel - 1, by have := fuel_pos e; omega⟩
  rw [walk, walk, hu, walkF_succ_members, walkF_succ_members,
    show ((0 : Int) + 1) = 1 from rfl]
  apply filter_view _ (fun a b hab => by
    simp only [memberView, Prod.mk.injEq] at hab
    show (a.name != "__init__") = (b.name != "__init__")
    rw [hab.1])
  exact get_members_md1_view u e _ _ _ H

/-- Witness for C8 at the concrete class `cxClass`, whose two documented
members survive at `max_depth = 1` (members `g` and `f`, identical to the
unlimited build) while `max_depth = 0` cuts them. -/
theorem claim_C8_witness :
    (walk cxClass "" "X" 0 0).members = [] ∧
    ((walk cxClass "" "X" 0 1).members.all fun m => m.members.isEmpty) = true ∧
    (walk cxClass "" "X" 0 1).members.map Node.name = ["g", "f"] ∧
    (walk cxClass "" "X" 0 1).members.map memberView =
      (walk cxClass "" "X" 0 (-1)).members.map memberView ∧
    ((0 : Int) + ((2 : Nat) : Int) ≤ 5 ∧
      walkF 2 cxClass "" "X" 0 5 = walkF 2 cxClass "" "X" 0 (-1)) :=
  ⟨claim_C8_depth_limiting.1 cxClass "" "X",
   claim_C8_depth_limiting.2.1 cxClass "" "X",
   by decide,
   claim_C8_depth_limiting.2.2.1 cxClass "" "X" (by decide),
   by norm_num,
   claim_C8_depth_limiting.2.2.2 2 cxClass "" "X" 0 5 (by norm_num)⟩

/-- C9: a symbol path for which every dotted prefix fails to import
makes `get_object` raise the "Could not find object" error, and any
`get_object` error propagates out of `get_node`, which then produces no
node at all. -/
theorem claim_C9_entity_not_found (modules : List (String × Entity))
    (name : String) (md : Int) :
    ((∀ k < (splitDots name).length + 1,
        (moduleLookup modules (joinDots ((splitDots name).take k))).isNone = true) →
      get_object modules name = .error ("Could not find object: " ++ name)) ∧
    (∀ msg, get_object modules name = .error msg →
      get_node modules name md = .error msg) := by
  constructor
  · intro h
    have go : ∀ K, K ≤ (splitDots name).length →
        get_objectGo modules name (splitDots name) K =
          .error ("Could not find object: " ++ name) := by
      intro K
      induction K with
      | zero => intro _; rfl
      | succ k ih =>
        intro hK
        have hl := h (k + 1) (by omega)
        rw [Option.isNone_iff_eq_none] at hl
        unfold get_objectGo
        simp only [hl]
        exact ih (by omega)
    exact go _ le_rfl
  · intro msg h
    unfold get_node
    rw [h]

/-- Witness for C9: with only `mkapi` importable, resolving
`nosuch.thing` errors out of both `get_object` and `get_node`. -/
theorem claim_C9_witness :
    get_object w9mods "nosuch.thing" =
      .error ("Could not find object: " ++ "nosuch.thing") ∧
    get_node w9mods "nosuch.thing" 3 =
      .error ("Could not find object: " ++ "nosuch.thing") := by
  have h := (claim_C9_entity_not_found w9mods "nosuch.thing" 3).1 (by decide)
  exact ⟨h, (claim_C9_entity_not_found w9mods "nosuch.thing" 3).2 _ h⟩

/-- C10: the node built for a property entity has an empty members
sequence at every depth and every max_depth. -/
theorem claim_C10_property_members_empty (e : Entity) (pfx nm : String)
    (depth md : Int) (hp : e.isProp = true) :
    (walk e pfx nm depth md).members = [] :=
  walkF_prop_members e.fuel e pfx nm depth md hp

/-- Witness for C10 at a concrete read-only property. -/
theorem claim_C10_witness :
    ePropRO.isProp = true ∧ (walk ePropRO "" "p" 0 (-1)).members = [] :=
  ⟨by decide, claim_C10_property_members_empty ePropRO "" "p" 0 (-1) (by decide)⟩

end Mkapi
